import Mathlib

/-!
Verification development for the `gde` repository (git-diff extractor).

The Rust sources are shallowly embedded:
* `src/git/onelinelog.rs` — the log-line parser (`RangeStr`, `Commit::from_str`,
  `OnelineLog::from`, `impl Display for Commit`) as pure functions on `List Char`
  (the Rust code itself works on a `Vec<char>`).
* `src/copy.rs` — the snapshot-extraction engine (`FilesCopy::copy`,
  `FilesCopyInner::copy`) as a trace-producing function over an oracle
  environment that supplies the outcome of every git/filesystem call.
* `src/lib.rs` — `Defer` as a small state machine.
* `src/git/mod.rs` — `Git::exec` current-directory save/restore.
* `src/bin/gde-tui.rs` — the commit-cursor navigation (`get_prev`/`prev`)
  with an explicit fuel parameter standing for the (unbounded) Rust recursion.

Machine integers: the only arithmetic that can overflow in the embedded code is
the `usize` subtraction `count - 1` in `Commit::from_str`; Rust panics there in
debug builds (and aborts on the ensuing huge allocation in release builds), so
the embedding surfaces that exit as an explicit `panicked` outcome instead of
using truncating `Nat` subtraction.
-/

namespace Gde

/-! ### `src/git/onelinelog.rs` — the log-line parser -/

/-- Rust `char::is_whitespace`, the predicate of `str::trim`: the Unicode
`White_Space` property — U+0009..U+000D, U+0020, U+0085, U+00A0, U+1680,
U+2000..U+200A, U+2028, U+2029, U+202F, U+205F, U+3000. -/
def isWs (c : Char) : Bool :=
  (0x09 ≤ c.toNat && c.toNat ≤ 0x0D) || c.toNat = 0x20 || c.toNat = 0x85 ||
  c.toNat = 0xA0 || c.toNat = 0x1680 || (0x2000 ≤ c.toNat && c.toNat ≤ 0x200A) ||
  c.toNat = 0x2028 || c.toNat = 0x2029 || c.toNat = 0x202F || c.toNat = 0x205F ||
  c.toNat = 0x3000

/-- Rust `str::trim`: drop whitespace from both ends. -/
def trimChars (l : List Char) : List Char :=
  ((l.dropWhile isWs).reverse.dropWhile isWs).reverse

/-- `self.c.iter().position(|&x| x == c)` — index of the first occurrence. -/
def firstPos (c : Char) : List Char → Option Nat
  | [] => none
  | x :: xs => if x = c then some 0 else (firstPos c xs).map (· + 1)

/-- `self.c.iter().rev().position(|&x| x == c)` converted to a forward index:
the index of the last occurrence. -/
def lastPos (c : Char) (l : List Char) : Option Nat :=
  (firstPos c l.reverse).map (fun k => l.length - 1 - k)

/-- `RangeStr::first_range(p1, p2)`: `(pos(first p1) + 1, pos(first p2))`.
Note the source does not require the `p2` occurrence to come after `p1`. -/
def firstRange (c₁ c₂ : Char) (l : List Char) : Option (Nat × Nat) :=
  match firstPos c₁ l, firstPos c₂ l with
  | some p, some q => some (p + 1, q)
  | _, _ => none

/-- `RangeStr::last_range(p1, p2)`: with `p1r`/`p2r` the reverse positions the
source returns `(len - p1r, len - p2r - 1)`, i.e. `(pos(last p1) + 1, pos(last p2))`. -/
def lastRange (c₁ c₂ : Char) (l : List Char) : Option (Nat × Nat) :=
  match lastPos c₁ l, lastPos c₂ l with
  | some p, some q => some (p + 1, q)
  | _, _ => none

/-- `RangeStr::str_from_range`: swaps the endpoints if needed, then slices
`c[p1..p2]` (half-open). -/
def strFromRange (l : List Char) (p1 p2 : Nat) : List Char :=
  ((l.drop (min p1 p2)).take (max p1 p2 - min p1 p2))

/-- `RangeStr::last_str`. -/
def lastStr (c₁ c₂ : Char) (l : List Char) : Option (List Char) :=
  (lastRange c₁ c₂ l).map (fun r => strFromRange l r.1 r.2)

/-- The `Commit` struct of `onelinelog.rs` (fields as in the source). -/
structure Commit where
  tree_head : List Char
  hash_padding : List Char
  hash : List Char
  aliases : Option (List Char)
  message : List Char
  date : List Char
  author : List Char
deriving Repr, DecidableEq

/-- Outcome of `Commit::from_str`: `ok` (the `Ok` branch), `err`
(`Err(Error::LogParse(..))`), or `panicked` — the `usize` underflow in
`itertools::repeat_n(' ', count - 1)` when the text between the first `*` and
the first `-` has no leading space (panic in debug builds, abort-by-allocation
in release builds). -/
inductive ParseOutcome
  | ok (c : Commit)
  | err
  | panicked
deriving Repr, DecidableEq

/-- `Commit::from_str` (`impl FromStr for Commit`), step for step. -/
def Commit.fromChars (s : List Char) : ParseOutcome :=
  match firstRange '*' '-' s with
  | none => .err
  | some hr =>
    let hash0 := strFromRange s hr.1 hr.2
    let nsp := (hash0.takeWhile (fun c => c = ' ')).length
    if nsp = 0 then .panicked
    else
      let padding : List Char := List.replicate (nsp - 1) ' '
      let hash := trimChars hash0
      match firstRange '(' ')' s with
      | none => .err
      | some ar =>
        let aliases0 := strFromRange s ar.1 ar.2
        match lastRange '(' ')' s with
        | none => .err
        | some dr =>
          let date := strFromRange s dr.1 dr.2
          match lastStr '<' '>' s with
          | none => .err
          | some author =>
            let am := if aliases0 = date then (none, hr.2 + 1)
                      else (some aliases0, ar.2 + 1)
            let message := trimChars (strFromRange s am.2 (dr.1 - 1))
            let tree_head := strFromRange s 0 (hr.1 - 1)
            .ok ⟨tree_head, padding, hash, am.1, message, date, author⟩

/-- The `OnelineLog` enum. -/
inductive OnelineLog
  | Commit (c : Commit)
  | TreeBranches (s : List Char)
deriving Repr, DecidableEq

/-- `OnelineLog::from`: fall back to `TreeBranches` on a parse error.  A Rust
panic does not produce a value, so the panicking exit is `none`. -/
def OnelineLog.fromChars (s : List Char) : Option OnelineLog :=
  match Commit.fromChars s with
  | .ok c => some (.Commit c)
  | .err => some (.TreeBranches s)
  | .panicked => none

/-- `impl Display for Commit`:
`{tree_head}* {hash_padding}{hash} -[ ({aliases})] {message} ({date}) <{author}>`. -/
def Commit.render (c : Commit) : List Char :=
  c.tree_head ++ '*' :: ' ' :: (c.hash_padding ++ (c.hash ++ ' ' :: '-' ::
    ((match c.aliases with
      | some a => ' ' :: '(' :: (a ++ [')'])
      | none => ([] : List Char)) ++
     ' ' :: (c.message ++ ' ' :: '(' :: (c.date ++ ')' :: ' ' :: '<' :: (c.author ++ ['>']))))))

/-! ### `src/copy.rs` — the snapshot-extraction engine, as a trace model

Commit identifiers and path components are abstracted as numbers (none of the
embedded control flow inspects their text).  A relative path is its component
list, as in `PathBuf`; `PathBuf::pop` is `List.dropLast` and `Path::join` is
append.  The collaborator calls (`git diff`, `git ls-tree`, `git checkout`,
`git reset --hard`, `fs::create_dir_all`, `fs::copy`) are an oracle
environment fixing each call's outcome; the functions return the list of
calls actually issued (the trace) together with the control-flow outcome.
The `Write` sink `w` is not modeled (the source's own test drives `copy` with
a `NullWriter`), and the constructor-time `git --version` / `rev-parse
--show-toplevel` queries of `GitDiff::new` / `GitLsTree::new` /
`GitCheckout::new` / `GitReset::new` are read-only and modeled as succeeding,
with the repository root `rootDir` supplied by the environment
(`GitCheckout::checkout` returns `root_dir.join(path)` on success). -/

abbrev CommitId := Nat

/-- A relative path as its list of components. -/
abbrev GPath := List Nat

/-- Errors of the engine: `dirty` is the `bail!("Please commit or discard the
changes")` exit; `cmd` is a failing collaborator call (diagnostic text
abstracted to a code). -/
inductive GErr
  | dirty
  | cmd (code : Nat)
deriving Repr, DecidableEq

/-- One collaborator call, as recorded in the trace. -/
inductive Ev
  | queryUnstagedDiff
  | queryStagedDiff
  | queryDiff
  | lsTree (commit : CommitId)
  | createDirAll (dir : GPath)
  | checkout (commit : CommitId) (path : GPath)
  | copyFile (src dst : GPath)
  | resetHard (commit : CommitId)
deriving Repr, DecidableEq

/-- Outcomes of each collaborator call, fixed up front by the oracle. -/
structure GitEnv where
  rootDir : GPath
  unstagedDiff : Except GErr (List GPath)
  stagedDiff : Except GErr (List GPath)
  diff : Except GErr (List GPath)
  lsTree : CommitId → Except GErr (List GPath)
  checkoutErr : CommitId → GPath → Option GErr
  createDirErr : GPath → Option GErr
  copyErr : GPath → GPath → Option GErr
  resetErr : CommitId → Option GErr

/-- How a run of the engine ends: `ok`/`err` are the `Result` values; a
`panicked` run is the `.unwrap()` panic inside the `Defer` closure. -/
inductive Outcome
  | ok
  | err (e : GErr)
  | panicked
deriving Repr, DecidableEq

/-- The fields of `FilesCopyInner`. -/
structure InnerCfg where
  target_files : List GPath
  commit : CommitId
  original_commit : CommitId
  output_dir : GPath
deriving Repr, DecidableEq

/-- The per-path loop of `FilesCopyInner::copy`: make the destination
directory, and when the path exists in the tree listing, materialize it
(`gc.checkout`), copy it out, then issue the best-effort restore
(`let _ = gc_origin.checkout(file)`) whose result is discarded. -/
def innerLoop (env : GitEnv) (cfg : InnerCfg) (tree : List GPath) :
    List GPath → List Ev × Except GErr Unit
  | [] => ([], .ok ())
  | f :: fs =>
    let outDir := cfg.output_dir ++ f.dropLast
    match env.createDirErr outDir with
    | some e => ([.createDirAll outDir], .error e)
    | none =>
      if f ∈ tree then
        let dst := cfg.output_dir ++ f
        match env.checkoutErr cfg.commit f with
        | some e => ([.createDirAll outDir, .checkout cfg.commit f], .error e)
        | none =>
          let src := env.rootDir ++ f
          match env.copyErr src dst with
          | some e =>
            ([.createDirAll outDir, .checkout cfg.commit f, .copyFile src dst], .error e)
          | none =>
            let rest := innerLoop env cfg tree fs
            (.createDirAll outDir :: .checkout cfg.commit f :: .copyFile src dst ::
              .checkout cfg.original_commit f :: rest.1, rest.2)
      else
        let rest := innerLoop env cfg tree fs
        (.createDirAll outDir :: rest.1, rest.2)

/-- `FilesCopyInner::copy`: list the tree, install
`Defer::new(|| gr.hard().unwrap())` where `gr = GitReset::new(git, self.commit,
target_dir)`, run the loop; the deferred hard reset fires on every exit of the
loop (its target is `self.commit`), and its failure panics via `.unwrap()`. -/
def innerCopy (env : GitEnv) (cfg : InnerCfg) : List Ev × Outcome :=
  match env.lsTree cfg.commit with
  | .error e => ([.lsTree cfg.commit], .err e)
  | .ok tree =>
    let body := innerLoop env cfg tree cfg.target_files
    (.lsTree cfg.commit :: body.1 ++ [.resetHard cfg.commit],
     match env.resetErr cfg.commit, body.2 with
     | some _, _ => .panicked
     | none, .ok _ => .ok
     | none, .error e => .err e)

/-- The fields of `FilesCopy` (the `git_path`/`target_dir` are inside the
environment). -/
structure CopyCfg where
  from_commit : CommitId
  to_commit : CommitId
  output_dir : GPath
  current_commit : CommitId
deriving Repr, DecidableEq

/-- Directory-name component for `output_dir.join("from")`. -/
def fromSeg : Nat := 0

/-- Directory-name component for `output_dir.join("to")`. -/
def toSeg : Nat := 1

/-- `FilesCopy::copy`: dirty check (unstaged, then staged, with `||`
short-circuit), diff computation, empty-diff early return, `create_dir_all`,
then the two inner passes. -/
def FilesCopy.copy (env : GitEnv) (cfg : CopyCfg) : List Ev × Outcome :=
  match env.unstagedDiff with
  | .error e => ([.queryUnstagedDiff], .err e)
  | .ok l1 =>
    if l1 ≠ [] then ([.queryUnstagedDiff], .err .dirty)
    else
      match env.stagedDiff with
      | .error e => ([.queryUnstagedDiff, .queryStagedDiff], .err e)
      | .ok l2 =>
        if l2 ≠ [] then ([.queryUnstagedDiff, .queryStagedDiff], .err .dirty)
        else
          match env.diff with
          | .error e => ([.queryUnstagedDiff, .queryStagedDiff, .queryDiff], .err e)
          | .ok files =>
            if files = [] then
              ([.queryUnstagedDiff, .queryStagedDiff, .queryDiff], .ok)
            else
              match env.createDirErr cfg.output_dir with
              | some e =>
                ([.queryUnstagedDiff, .queryStagedDiff, .queryDiff,
                  .createDirAll cfg.output_dir], .err e)
              | none =>
                let fromRun := innerCopy env
                  ⟨files, cfg.from_commit, cfg.current_commit, cfg.output_dir ++ [fromSeg]⟩
                match fromRun.2 with
                | .ok =>
                  let toRun := innerCopy env
                    ⟨files, cfg.to_commit, cfg.current_commit, cfg.output_dir ++ [toSeg]⟩
                  ([.queryUnstagedDiff, .queryStagedDiff, .queryDiff,
                    .createDirAll cfg.output_dir] ++ fromRun.1 ++ toRun.1, toRun.2)
                | r =>
                  ([.queryUnstagedDiff, .queryStagedDiff, .queryDiff,
                    .createDirAll cfg.output_dir] ++ fromRun.1, r)

/-! #### Claims about `FilesCopy::copy` / `FilesCopyInner::copy` -/

/-- Concrete oracle for the C6 witness: one unstaged change, all else clean. -/
def envC6 : GitEnv :=
  ⟨[], .ok [[5]], .ok [], .ok [], fun _ => .ok [], fun _ _ => none,
   fun _ => none, fun _ _ => none, fun _ => none⟩

/-- Concrete oracle for the C7 witness: clean tree, empty diff. -/
def envC7 : GitEnv :=
  ⟨[], .ok [], .ok [], .ok [], fun _ => .ok [], fun _ _ => none,
   fun _ => none, fun _ _ => none, fun _ => none⟩

/-- Concrete oracle for C1: one changed file, present in the tree at the
endpoint, and every collaborator call succeeds. -/
def envC1 : GitEnv :=
  ⟨[9], .ok [], .ok [], .ok [[5]], fun _ => .ok [[5]], fun _ _ => none,
   fun _ => none, fun _ _ => none, fun _ => none⟩

/-- Concrete oracle for the C2 counterexample: two changed files, both in the
endpoint tree; the best-effort restore (`checkout` at the original revision
`20`) fails for the first file; everything else succeeds. -/
def envC2 : GitEnv :=
  ⟨[9], .ok [], .ok [], .ok [[1], [2]], fun _ => .ok [[1], [2]],
   fun c p => if c = 20 ∧ p = [1] then some (.cmd 7) else none,
   fun _ => none, fun _ _ => none, fun _ => none⟩

/-- The same oracle as `envC2` but with every restore succeeding. -/
def envC2r : GitEnv :=
  ⟨[9], .ok [], .ok [], .ok [[1], [2]], fun _ => .ok [[1], [2]],
   fun _ _ => none, fun _ => none, fun _ _ => none, fun _ => none⟩

/-! ### `src/lib.rs` — `Defer` -/

/-- The `Defer<F>` struct: an optional stored closure.  The closure is
abstracted as an opaque action value of type `α`; running it appends it to an
action log. -/
structure Defer (α : Type) where
  f : Option α
deriving Repr, DecidableEq

/-- `Defer::new`. -/
def Defer.new {α : Type} (a : α) : Defer α := ⟨some a⟩

/-- `Defer::cancel`: `self.f = None`. -/
def Defer.cancel {α : Type} (_ : Defer α) : Defer α := ⟨none⟩

/-- `impl Drop for Defer`: `if let Some(f) = self.f.take() { f(); }` — returns
the actions run by this drop and the post-state. -/
def Defer.dropRun {α : Type} (d : Defer α) : List α × Defer α :=
  match d.f with
  | some a => ([a], ⟨none⟩)
  | none => ([], ⟨none⟩)

/-- The operations a scope can perform on a `Defer` before/at its end.
(`drop` fires on every exit path of the owning scope — normal exit, early
return, or unwind — which is Rust's guarantee; the model covers every
possible operation sequence.) -/
inductive DeferOp
  | cancel
  | drop
deriving Repr, DecidableEq

/-- Replay a sequence of operations, logging every closure invocation. -/
def Defer.runOps {α : Type} (d : Defer α) : List DeferOp → List α
  | [] => []
  | .cancel :: ops => Defer.runOps d.cancel ops
  | .drop :: ops =>
    let r := d.dropRun
    r.1 ++ Defer.runOps r.2 ops

/-! ### `src/bin/gde-tui.rs` — `StatefullTermOnelineLog::get_prev` / `prev`

The Rust `get_prev` is an unbounded recursion; the embedding adds an explicit
fuel argument, with `none` meaning the recursion has not returned within the
given number of self-calls.  A result that is `none` for *every* fuel is a
non-terminating run (in Rust: unbounded recursion until the stack overflows
and the process aborts). -/

/-- `get_prev(i)`: if `items[i]` is a `Commit`, return `i`; if it is a
decoration and `i > 0`, recurse on `i - 1`; otherwise (decoration at index 0,
or `i` out of bounds) fall through to `get_prev(0)`. -/
def getPrevF (items : List OnelineLog) : Nat → Nat → Option Nat
  | 0, _ => none
  | fuel + 1, i =>
    match items[i]? with
    | some (.Commit _) => some i
    | some _ => if i > 0 then getPrevF items fuel (i - 1) else getPrevF items fuel 0
    | none => getPrevF items fuel 0

/-- `prev()`: dispatch on the current selection.  (With a selection at index
0 the source computes `self.items.len() - 1`; for nonempty `items` — the only
case exercised below — the `Nat` subtraction agrees with the `usize` one.) -/
def prevF (items : List OnelineLog) (fuel : Nat) (selected : Option Nat) : Option Nat :=
  match selected with
  | some i =>
    if i > 0 then getPrevF items fuel (i - 1)
    else getPrevF items fuel (items.length - 1)
  | none => getPrevF items fuel 0

/-- A commit entry for concrete navigation inputs. -/
def commitA : Commit := ⟨[], [], ['a'], none, [], [], []⟩

/-- The failing entries for C8: a decoration first, then a commit. -/
def itemsC8 : List OnelineLog := [.TreeBranches ['|'], .Commit commitA]

/-! ### `src/git/mod.rs` — `Git::exec` saves and restores the current directory

Directories are abstracted as numbers; `env::set_current_dir` succeeds or
fails per the oracle (on failure the process cwd is unchanged), and
`env::current_dir` reads the tracked cwd.  The git action `f` is a blocking
subprocess call: it does not move our cwd, and its result is supplied as a
value. -/

structure CwdEnv where
  chdirOk : Nat → Bool

/-- `Git::change_currentdir(to)`: read the cwd, `set_current_dir(to)`, and
return the previous cwd.  Result is paired with the new process cwd. -/
def changeCurrentdir (env : CwdEnv) (dest cwd : Nat) : Except GErr Nat × Nat :=
  if env.chdirOk dest then (.ok cwd, dest) else (.error (.cmd 0), cwd)

/-- `Git::exec`: switch to the repository root, run the action, switch back,
then surface the action's result (the restoring `change_currentdir(dir)?`
comes before `ret` is returned, so its own failure takes precedence). -/
def Git.exec {α : Type} (env : CwdEnv) (targetDir : Nat)
    (fres : Except GErr α) (cwd0 : Nat) : Except GErr α × Nat :=
  match changeCurrentdir env targetDir cwd0 with
  | (.error e, c) => (.error e, c)
  | (.ok saved, c1) =>
    let ret := fres
    match changeCurrentdir env saved c1 with
    | (.error e, c2) => (.error e, c2)
    | (.ok _, c2) => (ret, c2)

/-- An oracle under which every directory switch succeeds. -/
def envC9 : CwdEnv := ⟨fun _ => true⟩

/-! ### Parser claims -/

/-! ## Theorems -/

/-- Sanity check mirroring the source unit test `test_commit` (first case),
on the line `* a1 - m (d) <u>`. -/
theorem sanity_parse_simple_line :
    Commit.fromChars
      ['*', ' ', 'a', '1', ' ', '-', ' ', 'm', ' ', '(', 'd', ')', ' ', '<', 'u', '>'] =
      .ok ⟨[], [], ['a', '1'], none, ['m'], ['d'], ['u']⟩ := by
  decide

/-- C6: if the unstaged diff against HEAD, or the staged diff, is non-empty,
`FilesCopy::copy` fails with the dirty-working-tree error before any mutation:
the trace holds nothing but the diff queries — no tree listing, no checkout,
no hard reset, no directory creation, no file copy. -/
theorem C6_dirty_precondition (env : GitEnv) (cfg : CopyCfg) (l : List GPath)
    (hl : l ≠ [])
    (h : env.unstagedDiff = .ok l ∨
         (env.unstagedDiff = .ok [] ∧ env.stagedDiff = .ok l)) :
    (FilesCopy.copy env cfg).2 = .err .dirty ∧
    ∀ e ∈ (FilesCopy.copy env cfg).1,
      e = .queryUnstagedDiff ∨ e = .queryStagedDiff := by
  rcases h with h | ⟨h1, h2⟩
  · simp [FilesCopy.copy, h, hl]
  · simp [FilesCopy.copy, h1, h2, hl]

/-- Witness for C6 at a concrete environment. -/
theorem C6_dirty_precondition_witness :
    (FilesCopy.copy envC6 ⟨10, 11, [3], 20⟩).2 = .err .dirty ∧
    ∀ e ∈ (FilesCopy.copy envC6 ⟨10, 11, [3], 20⟩).1,
      e = .queryUnstagedDiff ∨ e = .queryStagedDiff :=
  C6_dirty_precondition envC6 ⟨10, 11, [3], 20⟩ [[5]] (by decide) (Or.inl rfl)

/-- C7: a clean tree and an empty changed-path list give a successful run
whose trace is exactly the three diff queries — so no directory is ever
created, nothing is copied, and the working tree is never touched. -/
theorem C7_empty_diff (env : GitEnv) (cfg : CopyCfg)
    (h1 : env.unstagedDiff = .ok []) (h2 : env.stagedDiff = .ok [])
    (h3 : env.diff = .ok []) :
    FilesCopy.copy env cfg =
      ([.queryUnstagedDiff, .queryStagedDiff, .queryDiff], .ok) ∧
    ∀ e ∈ (FilesCopy.copy env cfg).1,
      (∀ d, e ≠ .createDirAll d) ∧ (∀ s d, e ≠ .copyFile s d) ∧
      (∀ c, e ≠ .resetHard c) ∧ (∀ c p, e ≠ .checkout c p) ∧
      (∀ c, e ≠ .lsTree c) := by
  refine ⟨by simp [FilesCopy.copy, h1, h2, h3], ?_⟩
  simp [FilesCopy.copy, h1, h2, h3]

/-- Witness for C7 at a concrete environment. -/
theorem C7_empty_diff_witness :
    FilesCopy.copy envC7 ⟨10, 11, [3], 20⟩ =
      ([.queryUnstagedDiff, .queryStagedDiff, .queryDiff], .ok) :=
  (C7_empty_diff envC7 ⟨10, 11, [3], 20⟩ rfl rfl rfl).1

/-- Helper: the loop body of `FilesCopyInner::copy` never issues a hard
reset — the only reset in an inner run is the deferred one. -/
theorem innerLoop_no_reset (env : GitEnv) (cfg : InnerCfg) (tree : List GPath) :
    ∀ (fs : List GPath) (c : CommitId),
      Ev.resetHard c ∉ (innerLoop env cfg tree fs).1 := by
  intro fs
  induction fs with
  | nil => intro c; simp [innerLoop]
  | cons f fs ih =>
    intro c
    simp only [innerLoop]
    cases env.createDirErr (cfg.output_dir ++ f.dropLast) with
    | some e => simp
    | none =>
      by_cases hf : f ∈ tree
      · simp only [hf, if_true]
        cases env.checkoutErr cfg.commit f with
        | some e => simp
        | none =>
          cases env.copyErr (env.rootDir ++ f) (cfg.output_dir ++ f) with
          | some e => simp
          | none => simp [ih c]
      · simp [hf, ih c]

/-- Helper: every hard reset in an inner-extraction trace targets
`cfg.commit` — the endpoint being extracted — never any other revision. -/
theorem innerCopy_reset_targets_endpoint (env : GitEnv) (cfg : InnerCfg)
    (c : CommitId) (h : Ev.resetHard c ∈ (innerCopy env cfg).1) :
    c = cfg.commit := by
  revert h
  simp only [innerCopy]
  cases env.lsTree cfg.commit with
  | error e => simp
  | ok tree =>
    intro h
    rcases List.mem_cons.1 h with h | h
    · exact absurd h (by simp)
    · rcases List.mem_append.1 h with h | h
      · exact absurd h (innerLoop_no_reset env cfg tree cfg.target_files c)
      · simpa using h

/-- C1: evaluating the inner extraction at a concrete, fully successful run
(endpoint commit `10`, original revision `20`): the run succeeds, the trace
ends with a hard reset — but its target is the endpoint commit `10`, and no
reset to the recorded original revision `20` ever happens, so the working
tree is left at the endpoint, not restored to `original_revision`. -/
theorem C1_cleanup_reset_targets_endpoint_not_original :
    (innerCopy envC1 ⟨[[5]], 10, 20, [1]⟩).2 = .ok ∧
    (innerCopy envC1 ⟨[[5]], 10, 20, [1]⟩).1.getLast? = some (.resetHard 10) ∧
    Ev.resetHard 20 ∉ (innerCopy envC1 ⟨[[5]], 10, 20, [1]⟩).1 := by
  refine ⟨rfl, rfl, ?_⟩
  decide

/-- C2 counterexample: with the restore of the first file failing, the inner
extraction still returns success and still processes the second file (its
copy appears in the trace) — it does not abort with any error, let alone a
`RestoreFailed` one (no such error exists in the source). -/
theorem C2_counterexample_restore_failure_ignored :
    (innerCopy envC2 ⟨[[1], [2]], 10, 20, [3]⟩).2 = .ok ∧
    Ev.checkout 20 [1] ∈ (innerCopy envC2 ⟨[[1], [2]], 10, 20, [3]⟩).1 ∧
    Ev.copyFile [9, 2] [3, 2] ∈ (innerCopy envC2 ⟨[[1], [2]], 10, 20, [3]⟩).1 := by
  refine ⟨rfl, by decide, by decide⟩

/-- Helper for the amended C2: the loop of `FilesCopyInner::copy` is entirely
insensitive to the outcomes of the best-effort restore calls — the restore's
result is bound to `_` and dropped in the source. -/
theorem innerLoop_ignores_restore_outcomes (env env₂ : GitEnv) (cfg : InnerCfg)
    (tree : List GPath) (hne : cfg.commit ≠ cfg.original_commit)
    (hroot : env₂.rootDir = env.rootDir)
    (hcd : env₂.createDirErr = env.createDirErr)
    (hcp : env₂.copyErr = env.copyErr)
    (hco : ∀ c p, c ≠ cfg.original_commit → env₂.checkoutErr c p = env.checkoutErr c p) :
    ∀ fs : List GPath,
      innerLoop env₂ cfg tree fs = innerLoop env cfg tree fs := by
  intro fs
  induction fs with
  | nil => rfl
  | cons f fs ih =>
    simp only [innerLoop, hroot, hcd, hcp, hco cfg.commit f hne, ih]

/-- C2 (amended): the per-path restore is best-effort only — the whole result
of an inner extraction (trace and outcome alike) is unchanged under any
change to the outcomes of the restore checkouts at the original revision. -/
theorem C2_restore_is_best_effort (env env₂ : GitEnv) (cfg : InnerCfg)
    (hne : cfg.commit ≠ cfg.original_commit)
    (hroot : env₂.rootDir = env.rootDir)
    (hls : env₂.lsTree = env.lsTree)
    (hcd : env₂.createDirErr = env.createDirErr)
    (hcp : env₂.copyErr = env.copyErr)
    (hrs : env₂.resetErr = env.resetErr)
    (hco : ∀ c p, c ≠ cfg.original_commit → env₂.checkoutErr c p = env.checkoutErr c p) :
    innerCopy env₂ cfg = innerCopy env cfg := by
  simp only [innerCopy, hls, hrs,
    innerLoop_ignores_restore_outcomes env env₂ cfg _ hne hroot hcd hcp hco]

/-- Witness for the amended C2: the failing-restore run and the
all-successful run of the inner extraction coincide completely. -/
theorem C2_restore_is_best_effort_witness :
    innerCopy envC2 ⟨[[1], [2]], 10, 20, [3]⟩ =
      innerCopy envC2r ⟨[[1], [2]], 10, 20, [3]⟩ :=
  C2_restore_is_best_effort envC2r envC2 ⟨[[1], [2]], 10, 20, [3]⟩
    (by decide) rfl rfl rfl rfl rfl
    (fun c p hc => by
      simp only [envC2, envC2r]
      simp [hc])

/-- Helper: once the stored closure is gone, no operation sequence can run
anything. -/
theorem Defer.runOps_none {α : Type} :
    ∀ ops : List DeferOp, Defer.runOps (⟨none⟩ : Defer α) ops = [] := by
  intro ops
  induction ops with
  | nil => rfl
  | cons op ops ih => cases op <;> simpa [Defer.runOps, Defer.cancel, Defer.dropRun]

/-- C10: over every operation sequence, a `Defer` runs its closure at most
once; dropping it without a prior `cancel` runs the closure exactly once, and
dropping it after one or more `cancel`s runs it not at all. -/
theorem C10_defer_runs_closure_exactly_once (α : Type) (a : α) :
    (∀ ops : List DeferOp, (Defer.runOps (Defer.new a) ops).length ≤ 1) ∧
    Defer.runOps (Defer.new a) [.drop] = [a] ∧
    (∀ n : Nat,
      Defer.runOps (Defer.new a) (List.replicate (n + 1) .cancel ++ [.drop]) = []) := by
  refine ⟨?_, ?_, ?_⟩
  · intro ops
    cases ops with
    | nil => simp [Defer.runOps]
    | cons op ops =>
      cases op with
      | cancel =>
        simp [Defer.runOps, Defer.new, Defer.cancel, Defer.runOps_none]
      | drop =>
        simp [Defer.runOps, Defer.new, Defer.dropRun, Defer.runOps_none]
  · rfl
  · intro n
    simp [List.replicate_succ, Defer.runOps, Defer.new, Defer.cancel, Defer.runOps_none]

/-- C8: the entries contain a `Commit`, the cursor sits on it (index 1), yet
`prev` never returns for any recursion budget: searching backward it reaches
the decoration at index 0 and then calls `get_prev(0)` on itself forever
instead of wrapping to the last index.  The claimed behavior (terminate and
wrap to the commit at the last index) fails. -/
theorem C8_prev_diverges_on_leading_decoration :
    (∃ c, OnelineLog.Commit c ∈ itemsC8) ∧
    ∀ fuel : Nat, prevF itemsC8 fuel (some 1) = none := by
  refine ⟨⟨commitA, by simp [itemsC8]⟩, ?_⟩
  have h0 : ∀ m : Nat, getPrevF itemsC8 m 0 = none := by
    intro m
    induction m with
    | zero => rfl
    | succ k ih => simpa [getPrevF, itemsC8] using ih
  intro fuel
  simpa [prevF] using h0 fuel

/-- C9: whenever the two directory switches themselves succeed, `Git::exec`
returns with the process cwd equal to what it was on entry and surfaces the
inner action's result unchanged — for `Ok` and `Err` results alike. -/
theorem C9_exec_restores_cwd (α : Type) (env : CwdEnv) (t c0 : Nat)
    (fres : Except GErr α) (h1 : env.chdirOk t = true) (h2 : env.chdirOk c0 = true) :
    Git.exec env t fres c0 = (fres, c0) := by
  simp [Git.exec, changeCurrentdir, h1, h2]

/-- Witness for C9, at a concrete failing inner action (the `Err` case). -/
theorem C9_exec_restores_cwd_witness :
    Git.exec envC9 1 (.error (.cmd 3) : Except GErr Unit) 2 = (.error (.cmd 3), 2) :=
  C9_exec_restores_cwd Unit envC9 1 2 (.error (.cmd 3)) rfl rfl

theorem firstPos_eq_none {c : Char} {l : List Char} (h : c ∉ l) :
    firstPos c l = none := by
  induction l with
  | nil => rfl
  | cons x xs ih =>
    rw [List.mem_cons, not_or] at h
    have hx : x ≠ c := fun he => h.1 he.symm
    simp [firstPos, hx, ih h.2]

theorem firstRange_eq_none_of_left {c₁ c₂ : Char} {l : List Char}
    (h : firstPos c₁ l = none) : firstRange c₁ c₂ l = none := by
  unfold firstRange
  rw [h]

theorem firstRange_eq_none_of_right {c₁ c₂ : Char} {l : List Char}
    (h : firstPos c₂ l = none) : firstRange c₁ c₂ l = none := by
  unfold firstRange
  rw [h]
  cases firstPos c₁ l <;> rfl

/-- If the line has no `*` at all or no `-` at all, `Commit::from_str` takes
the `Err(Error::LogParse(..))` exit at step 1. -/
theorem Commit.fromChars_err_of_no_star_or_dash {s : List Char}
    (h : '*' ∉ s ∨ '-' ∉ s) : Commit.fromChars s = .err := by
  have hfr : firstRange '*' '-' s = none := by
    rcases h with h | h
    · exact firstRange_eq_none_of_left (firstPos_eq_none h)
    · exact firstRange_eq_none_of_right (firstPos_eq_none h)
  unfold Commit.fromChars
  rw [hfr]

/-- C3: the parser is not total.  On the two-character line `*-` the text
between the first `*` and the first `-` is empty, so its leading-space count
is `0` and `Commit::from_str` evaluates the `usize` expression `0 - 1`
(building the hash padding), which panics in debug builds and aborts on the
resulting huge allocation in release builds — `OnelineLog::from` never
returns a value, instead of falling back to `TreeBranches`. -/
theorem C3_parser_panics_on_padding_underflow :
    OnelineLog.fromChars ['*', '-'] = none := by decide

/-- C5 counterexample: on the line `-*` both characters are present but the
first `-` does not come after the first `*`; the claim says the parser must
yield a `GraphDecoration` holding the text, but the parser instead hits the
same padding underflow (the swapped hash slice starts with `-`) and panics,
yielding no value at all. -/
theorem C5_counterexample_dash_before_star :
    OnelineLog.fromChars ['-', '*'] = none ∧
    OnelineLog.fromChars ['-', '*'] ≠
      some (.TreeBranches ['-', '*']) := by decide

/-- C5 (amended): a line missing `*` entirely or missing `-` entirely parses
to a `GraphDecoration` (`TreeBranches`) holding the original text unchanged;
in particular any line made only of the graph-drawing characters `|`, `\`,
`/` and spaces does.  (The original claim's third case — both present but the
first `-` before the first `*` — instead panics; see the counterexample.) -/
theorem C5_decoration_fallback :
    (∀ s : List Char, ('*' ∉ s ∨ '-' ∉ s) →
      OnelineLog.fromChars s = some (.TreeBranches s)) ∧
    (∀ s : List Char, (∀ c ∈ s, c = '|' ∨ c = '\\' ∨ c = '/' ∨ c = ' ') →
      OnelineLog.fromChars s = some (.TreeBranches s)) := by
  have main : ∀ s : List Char, ('*' ∉ s ∨ '-' ∉ s) →
      OnelineLog.fromChars s = some (.TreeBranches s) := by
    intro s h
    unfold OnelineLog.fromChars
    rw [Commit.fromChars_err_of_no_star_or_dash h]
  refine ⟨main, fun s h => main s (Or.inl fun hs => ?_)⟩
  rcases h '*' hs with h1 | h1 | h1 | h1 <;> exact absurd h1 (by decide)

/-- Witness for the amended C5 on the concrete graph-only line `| \`. -/
theorem C5_decoration_fallback_witness :
    OnelineLog.fromChars ['|', ' ', '\\'] =
      some (.TreeBranches ['|', ' ', '\\']) :=
  C5_decoration_fallback.2 ['|', ' ', '\\'] (by decide)

/-! ### Positional lemmas for the round-trip analysis -/

theorem not_mem_append {c : Char} {l₁ l₂ : List Char} (h₁ : c ∉ l₁) (h₂ : c ∉ l₂) :
    c ∉ l₁ ++ l₂ := by
  simp [List.mem_append, h₁, h₂]

theorem not_mem_cons {c x : Char} {l : List Char} (hx : c ≠ x) (h : c ∉ l) :
    c ∉ x :: l := by
  simp [List.mem_cons, hx, h]

theorem firstPos_append {c : Char} {l₁ : List Char} (l₂ : List Char) (h : c ∉ l₁) :
    firstPos c (l₁ ++ l₂) = (firstPos c l₂).map (l₁.length + ·) := by
  induction l₁ with
  | nil => cases hf : firstPos c l₂ <;> simp [hf]
  | cons x xs ih =>
    rw [List.mem_cons, not_or] at h
    have hx : x ≠ c := fun he => h.1 he.symm
    rw [List.cons_append,
      show firstPos c (x :: (xs ++ l₂)) = (firstPos c (xs ++ l₂)).map (· + 1) from by
        simp [firstPos, hx],
      ih h.2]
    cases hf : firstPos c l₂ <;> simp [hf] <;> omega

theorem firstPos_split {c : Char} {l₁ : List Char} (l₂ : List Char) (h : c ∉ l₁) :
    firstPos c (l₁ ++ c :: l₂) = some l₁.length := by
  rw [firstPos_append _ h]
  simp [firstPos]

theorem lastPos_split {c : Char} (l₁ : List Char) {l₂ : List Char} (h : c ∉ l₂) :
    lastPos c (l₁ ++ c :: l₂) = some l₁.length := by
  unfold lastPos
  rw [show (l₁ ++ c :: l₂).reverse = l₂.reverse ++ c :: l₁.reverse from by simp,
    firstPos_split _ (by simpa using h)]
  simp only [Option.map_some', List.length_append, List.length_reverse,
    List.length_cons, Option.some.injEq]
  omega

theorem strFromRange_split (l₁ m l₂ : List Char) {a b : Nat}
    (ha : a = l₁.length) (hb : b = l₁.length + m.length) :
    strFromRange (l₁ ++ (m ++ l₂)) a b = m := by
  subst ha
  subst hb
  unfold strFromRange
  rw [Nat.min_eq_left (Nat.le_add_right _ _), Nat.max_eq_right (Nat.le_add_right _ _),
    Nat.add_sub_cancel_left, List.drop_left, List.take_left]

theorem takeWhile_append_all {p : Char → Bool} {l₁ : List Char} (l₂ : List Char)
    (h : ∀ x ∈ l₁, p x = true) :
    (l₁ ++ l₂).takeWhile p = l₁ ++ l₂.takeWhile p := by
  induction l₁ with
  | nil => simp
  | cons x xs ih =>
    rw [List.cons_append, List.takeWhile_cons, if_pos (h x (by simp)),
      ih (fun y hy => h y (by simp [hy])), List.cons_append]

theorem dropWhile_append_all {p : Char → Bool} {l₁ : List Char} (l₂ : List Char)
    (h : ∀ x ∈ l₁, p x = true) :
    (l₁ ++ l₂).dropWhile p = l₂.dropWhile p := by
  induction l₁ with
  | nil => simp
  | cons x xs ih =>
    rw [List.cons_append, List.dropWhile_cons, if_pos (h x (by simp))]
    exact ih (fun y hy => h y (by simp [hy]))

theorem dropWhile_eq_self_of_all_false {p : Char → Bool} {l : List Char}
    (h : ∀ x ∈ l, p x = false) : l.dropWhile p = l := by
  cases l with
  | nil => rfl
  | cons x xs =>
    rw [List.dropWhile_cons, if_neg (by simp [h x (List.mem_cons_self x xs)])]

theorem dropWhile_append_general (p : Char → Bool) (l₁ l₂ : List Char) :
    (l₁ ++ l₂).dropWhile p =
      if l₁.dropWhile p = [] then l₂.dropWhile p else l₁.dropWhile p ++ l₂ := by
  induction l₁ with
  | nil => simp
  | cons x xs ih =>
    cases hx : p x with
    | true => simp [List.dropWhile_cons, hx, ih]
    | false => simp [List.dropWhile_cons, hx]

theorem trimChars_cons_space (l : List Char) : trimChars (' ' :: l) = trimChars l := by
  unfold trimChars
  rw [List.dropWhile_cons, if_pos (by decide)]

theorem trimChars_concat_space (l : List Char) : trimChars (l ++ [' ']) = trimChars l := by
  unfold trimChars
  rw [dropWhile_append_general]
  by_cases h : l.dropWhile isWs = []
  · rw [if_pos h, h]
    rfl
  · rw [if_neg h, List.reverse_append]
    simp only [List.reverse_cons, List.reverse_nil, List.nil_append, List.singleton_append]
    rw [List.dropWhile_cons, if_pos (by decide)]

theorem trimChars_all_space_front {P : List Char} (l : List Char)
    (hP : ∀ x ∈ P, x = ' ') : trimChars (P ++ l) = trimChars l := by
  induction P with
  | nil => simp
  | cons x xs ih =>
    rw [List.cons_append, hP x (by simp), trimChars_cons_space]
    exact ih (fun y hy => hP y (by simp [hy]))

theorem trimChars_eq_self_of_no_ws {l : List Char} (h : ∀ x ∈ l, isWs x = false) :
    trimChars l = l := by
  unfold trimChars
  rw [dropWhile_eq_self_of_all_false h,
    dropWhile_eq_self_of_all_false (fun x hx => h x (List.mem_reverse.1 hx)),
    List.reverse_reverse]

/-- Evaluating `Commit::from_str` once the four delimiter searches are known
to succeed and the padding count is nonzero. -/
theorem fromChars_of_ranges {s : List Char} {h1 h2 a1 a2 d1 d2 : Nat} {au : List Char}
    (hfr : firstRange '*' '-' s = some (h1, h2))
    (har : firstRange '(' ')' s = some (a1, a2))
    (hdr : lastRange '(' ')' s = some (d1, d2))
    (hau : lastStr '<' '>' s = some au)
    (hnsp : ((strFromRange s h1 h2).takeWhile (fun c => c = ' ')).length ≠ 0) :
    Commit.fromChars s = .ok
      ⟨strFromRange s 0 (h1 - 1),
       List.replicate (((strFromRange s h1 h2).takeWhile (fun c => c = ' ')).length - 1) ' ',
       trimChars (strFromRange s h1 h2),
       if strFromRange s a1 a2 = strFromRange s d1 d2 then none
         else some (strFromRange s a1 a2),
       trimChars (strFromRange s
         (if strFromRange s a1 a2 = strFromRange s d1 d2 then h2 + 1 else a2 + 1) (d1 - 1)),
       strFromRange s d1 d2, au⟩ := by
  unfold Commit.fromChars
  rw [hfr]
  simp only [har, hdr, hau, if_neg hnsp]
  by_cases had : strFromRange s a1 a2 = strFromRange s d1 d2
  · simp [had]
  · simp [had]

/-- The hash block `" " ++ P ++ H ++ " "` keeps exactly its leading spaces
under `take_while(== ' ')` when `P` is all spaces and `H` starts otherwise. -/
theorem takeWhile_space_block (P H : List Char) (hP : ∀ x ∈ P, x = ' ')
    (hHsp : ' ' ∉ H) (hHne : H ≠ []) :
    (' ' :: (P ++ (H ++ [' ']))).takeWhile (fun c => c = ' ') = ' ' :: P := by
  cases H with
  | nil => exact absurd rfl hHne
  | cons h0 H2 =>
    have hh0 : ¬(h0 = ' ') := fun he => hHsp (he ▸ List.mem_cons_self h0 H2)
    rw [List.takeWhile_cons, if_pos (by decide),
      takeWhile_append_all _ (fun x hx => by simp [hP x hx]),
      List.cons_append, List.takeWhile_cons, if_neg (by simpa using hh0),
      List.append_nil]

/-- Trimming the hash block recovers the hash. -/
theorem trim_space_block (P H : List Char) (hP : ∀ x ∈ P, x = ' ')
    (hHw : ∀ x ∈ H, isWs x = false) :
    trimChars (' ' :: (P ++ (H ++ [' ']))) = H := by
  rw [trimChars_cons_space, trimChars_all_space_front _ hP, trimChars_concat_space,
    trimChars_eq_self_of_no_ws hHw]

/-- Round trip, alias-free case: rendering a canonical `Commit` without
aliases and re-parsing recovers it field for field. -/
theorem roundtrip_none (T P H M D U : List Char)
    (hT : '*' ∉ T ∧ '-' ∉ T ∧ '(' ∉ T ∧ ')' ∉ T)
    (hP : ∀ x ∈ P, x = ' ')
    (hHne : H ≠ [])
    (hH : ∀ x ∈ H, isWs x = false ∧ x ≠ '-' ∧ x ≠ '(' ∧ x ≠ ')')
    (hMc : ∀ x ∈ M, x ≠ '(' ∧ x ≠ ')')
    (hMt : trimChars M = M)
    (hD : ∀ x ∈ D, x ≠ '(' ∧ x ≠ ')' ∧ x ≠ '<' ∧ x ≠ '>')
    (hU : ∀ x ∈ U, x ≠ '(' ∧ x ≠ ')' ∧ x ≠ '<' ∧ x ≠ '>') :
    Commit.fromChars (Commit.render ⟨T, P, H, none, M, D, U⟩) =
      .ok ⟨T, P, H, none, M, D, U⟩ := by
  have hPd : '-' ∉ P := fun hm => absurd (hP _ hm) (by decide)
  have hPl : '(' ∉ P := fun hm => absurd (hP _ hm) (by decide)
  have hPr : ')' ∉ P := fun hm => absurd (hP _ hm) (by decide)
  have hHd : '-' ∉ H := fun hm => (hH _ hm).2.1 rfl
  have hHl : '(' ∉ H := fun hm => (hH _ hm).2.2.1 rfl
  have hHr : ')' ∉ H := fun hm => (hH _ hm).2.2.2 rfl
  have hHsp : ' ' ∉ H := fun hm => absurd (hH _ hm).1 (by decide)
  have hHw : ∀ x ∈ H, isWs x = false := fun x hx => (hH x hx).1
  have hMl : '(' ∉ M := fun hm => (hMc _ hm).1 rfl
  have hMr : ')' ∉ M := fun hm => (hMc _ hm).2 rfl
  have hDl : '(' ∉ D := fun hm => (hD _ hm).1 rfl
  have hDr : ')' ∉ D := fun hm => (hD _ hm).2.1 rfl
  have hUl : '(' ∉ U := fun hm => (hU _ hm).1 rfl
  have hUr : ')' ∉ U := fun hm => (hU _ hm).2.1 rfl
  have hUlt : '<' ∉ U := fun hm => (hU _ hm).2.2.1 rfl
  have hr0 : Commit.render ⟨T, P, H, none, M, D, U⟩ =
      T ++ '*' :: ' ' :: (P ++ (H ++ ' ' :: '-' :: (' ' :: (M ++ ' ' :: '(' ::
        (D ++ ')' :: ' ' :: '<' :: (U ++ ['>'])))))) := by
    simp [Commit.render]
  rw [hr0]
  set s := T ++ '*' :: ' ' :: (P ++ (H ++ ' ' :: '-' :: (' ' :: (M ++ ' ' :: '(' ::
    (D ++ ')' :: ' ' :: '<' :: (U ++ ['>'])))))) with hs
  have f_star : firstPos '*' s = some T.length := by
    rw [hs]
    exact firstPos_split _ hT.1
  have e2 : s = (T ++ '*' :: ' ' :: (P ++ (H ++ [' ']))) ++ '-' :: (' ' :: (M ++ ' ' :: '(' ::
      (D ++ ')' :: ' ' :: '<' :: (U ++ ['>'])))) := by
    rw [hs]
    simp [List.append_assoc]
  have hnm2 : '-' ∉ T ++ '*' :: ' ' :: (P ++ (H ++ [' '])) :=
    not_mem_append hT.2.1 (not_mem_cons (by decide) (not_mem_cons (by decide)
      (not_mem_append hPd (not_mem_append hHd (not_mem_cons (by decide) (by simp))))))
  have f_dash : firstPos '-' s = some (T.length + P.length + H.length + 3) := by
    rw [e2, firstPos_split _ hnm2]
    simp only [List.length_append, List.length_cons, List.length_nil, Option.some.injEq] <;> omega
  have hfr : firstRange '*' '-' s =
      some (T.length + 1, T.length + P.length + H.length + 3) := by
    unfold firstRange
    rw [f_star, f_dash]
  have e3 : s = (T ++ ['*']) ++ ((' ' :: (P ++ (H ++ [' ']))) ++ ('-' :: (' ' :: (M ++ ' ' :: '(' ::
      (D ++ ')' :: ' ' :: '<' :: (U ++ ['>'])))))) := by
    rw [hs]
    simp [List.append_assoc]
  have e_h0 : strFromRange s (T.length + 1) (T.length + P.length + H.length + 3) =
      ' ' :: (P ++ (H ++ [' '])) := by
    rw [e3]
    exact strFromRange_split _ _ _
      (by simp only [List.length_append, List.length_cons, List.length_nil] <;> omega)
      (by simp only [List.length_append, List.length_cons, List.length_nil] <;> omega)
  have e_tw : ((strFromRange s (T.length + 1) (T.length + P.length + H.length + 3)).takeWhile
      (fun c => c = ' ')).length = P.length + 1 := by
    rw [e_h0, takeWhile_space_block P H hP hHsp hHne]
    simp
  have e4 : s = (T ++ '*' :: ' ' :: (P ++ (H ++ ' ' :: '-' :: (' ' :: (M ++ [' ']))))) ++ '(' ::
      (D ++ ')' :: ' ' :: '<' :: (U ++ ['>'])) := by
    rw [hs]
    simp [List.append_assoc]
  have hnml : '(' ∉ T ++ '*' :: ' ' :: (P ++ (H ++ ' ' :: '-' :: (' ' :: (M ++ [' '])))) :=
    not_mem_append hT.2.2.1 (not_mem_cons (by decide) (not_mem_cons (by decide)
      (not_mem_append hPl (not_mem_append hHl (not_mem_cons (by decide) (not_mem_cons (by decide)
        (not_mem_cons (by decide) (not_mem_append hMl (not_mem_cons (by decide) (by simp))))))))))
  have f_lpar : firstPos '(' s =
      some (T.length + P.length + H.length + M.length + 6) := by
    rw [e4, firstPos_split _ hnml]
    simp only [List.length_append, List.length_cons, List.length_nil, Option.some.injEq] <;> omega
  have e5 : s = (T ++ '*' :: ' ' :: (P ++ (H ++ ' ' :: '-' :: (' ' :: (M ++ ' ' :: '(' :: D))))) ++ ')' ::
      (' ' :: '<' :: (U ++ ['>'])) := by
    rw [hs]
    simp [List.append_assoc]
  have hnmr : ')' ∉ T ++ '*' :: ' ' :: (P ++ (H ++ ' ' :: '-' :: (' ' :: (M ++ ' ' :: '(' :: D)))) :=
    not_mem_append hT.2.2.2 (not_mem_cons (by decide) (not_mem_cons (by decide)
      (not_mem_append hPr (not_mem_append hHr (not_mem_cons (by decide) (not_mem_cons (by decide)
        (not_mem_cons (by decide) (not_mem_append hMr (not_mem_cons (by decide)
          (not_mem_cons (by decide) hDr))))))))))
  have f_rpar : firstPos ')' s =
      some (T.length + P.length + H.length + M.length + D.length + 7) := by
    rw [e5, firstPos_split _ hnmr]
    simp only [List.length_append, List.length_cons, List.length_nil, Option.some.injEq] <;> omega
  have har : firstRange '(' ')' s =
      some (T.length + P.length + H.length + M.length + 7,
        T.length + P.length + H.length + M.length + D.length + 7) := by
    unfold firstRange
    rw [f_lpar, f_rpar]
  have hnl2 : '(' ∉ D ++ ')' :: ' ' :: '<' :: (U ++ ['>']) :=
    not_mem_append hDl (not_mem_cons (by decide) (not_mem_cons (by decide) (not_mem_cons (by decide)
      (not_mem_append hUl (not_mem_cons (by decide) (by simp))))))
  have g_lpar : lastPos '(' s =
      some (T.length + P.length + H.length + M.length + 6) := by
    rw [e4, lastPos_split _ hnl2]
    simp only [List.length_append, List.length_cons, List.length_nil, Option.some.injEq] <;> omega
  have hnr2 : ')' ∉ ' ' :: '<' :: (U ++ ['>']) :=
    not_mem_cons (by decide) (not_mem_cons (by decide)
      (not_mem_append hUr (not_mem_cons (by decide) (by simp))))
  have g_rpar : lastPos ')' s =
      some (T.length + P.length + H.length + M.length + D.length + 7) := by
    rw [e5, lastPos_split _ hnr2]
    simp only [List.length_append, List.length_cons, List.length_nil, Option.some.injEq] <;> omega
  have hdr : lastRange '(' ')' s =
      some (T.length + P.length + H.length + M.length + 7,
        T.length + P.length + H.length + M.length + D.length + 7) := by
    unfold lastRange
    rw [g_lpar, g_rpar]
  have e6 : s = (T ++ '*' :: ' ' :: (P ++ (H ++ ' ' :: '-' :: (' ' :: (M ++ ' ' :: '(' ::
      (D ++ ')' :: [' '])))))) ++ '<' :: (U ++ ['>']) := by
    rw [hs]
    simp [List.append_assoc]
  have hnlt : '<' ∉ U ++ ['>'] :=
    not_mem_append hUlt (not_mem_cons (by decide) (by simp))
  have g_lt : lastPos '<' s =
      some (T.length + P.length + H.length + M.length + D.length + 9) := by
    rw [e6, lastPos_split _ hnlt]
    simp only [List.length_append, List.length_cons, List.length_nil, Option.some.injEq] <;> omega
  have e7 : s = (T ++ '*' :: ' ' :: (P ++ (H ++ ' ' :: '-' :: (' ' :: (M ++ ' ' :: '(' ::
      (D ++ ')' :: ' ' :: '<' :: U)))))) ++ '>' :: [] := by
    rw [hs]
    simp [List.append_assoc]
  have g_gt : lastPos '>' s =
      some (T.length + P.length + H.length + M.length + D.length + U.length + 10) := by
    rw [e7, lastPos_split _ (by simp)]
    simp only [List.length_append, List.length_cons, List.length_nil, Option.some.injEq] <;> omega
  have e8 : s = (T ++ '*' :: ' ' :: (P ++ (H ++ ' ' :: '-' :: (' ' :: (M ++ ' ' :: '(' ::
      (D ++ ')' :: ' ' :: ['<'])))))) ++ (U ++ ['>']) := by
    rw [hs]
    simp [List.append_assoc]
  have e_au : strFromRange s (T.length + P.length + H.length + M.length + D.length + 10)
      (T.length + P.length + H.length + M.length + D.length + U.length + 10) = U := by
    rw [e8]
    exact strFromRange_split _ _ _
      (by simp only [List.length_append, List.length_cons, List.length_nil] <;> omega)
      (by simp only [List.length_append, List.length_cons, List.length_nil] <;> omega)
  have hau : lastStr '<' '>' s = some U := by
    unfold lastStr lastRange
    rw [g_lt, g_gt]
    show some (strFromRange s (T.length + P.length + H.length + M.length + D.length + 9 + 1)
      (T.length + P.length + H.length + M.length + D.length + U.length + 10)) = some U
    rw [show T.length + P.length + H.length + M.length + D.length + 9 + 1 =
        T.length + P.length + H.length + M.length + D.length + 10 from by omega]
    exact congrArg some e_au
  have e9 : s = (T ++ '*' :: ' ' :: (P ++ (H ++ ' ' :: ['-']))) ++ ((' ' :: (M ++ [' '])) ++ ('(' ::
      (D ++ ')' :: ' ' :: '<' :: (U ++ ['>'])))) := by
    rw [hs]
    simp [List.append_assoc]
  have e_msg : strFromRange s (T.length + P.length + H.length + 3 + 1)
      (T.length + P.length + H.length + M.length + 7 - 1) = ' ' :: (M ++ [' ']) := by
    rw [e9]
    exact strFromRange_split _ _ _
      (by simp only [List.length_append, List.length_cons, List.length_nil] <;> omega)
      (by simp only [List.length_append, List.length_cons, List.length_nil] <;> omega)
  have e11 : s = (T ++ '*' :: ' ' :: (P ++ (H ++ ' ' :: '-' :: (' ' :: (M ++ ' ' :: ['(']))))) ++
      (D ++ (')' :: ' ' :: '<' :: (U ++ ['>']))) := by
    rw [hs]
    simp [List.append_assoc]
  have e_dt : strFromRange s (T.length + P.length + H.length + M.length + 7)
      (T.length + P.length + H.length + M.length + D.length + 7) = D := by
    rw [e11]
    exact strFromRange_split _ _ _
      (by simp only [List.length_append, List.length_cons, List.length_nil] <;> omega)
      (by simp only [List.length_append, List.length_cons, List.length_nil] <;> omega)
  have e10 : s = ([] : List Char) ++ (T ++ ('*' :: ' ' :: (P ++ (H ++ ' ' :: '-' :: (' ' :: (M ++ ' ' :: '(' ::
      (D ++ ')' :: ' ' :: '<' :: (U ++ ['>'])))))))) := by
    rw [hs]
    simp
  have e_th : strFromRange s 0 (T.length + 1 - 1) = T := by
    rw [e10]
    exact strFromRange_split _ _ _ (by simp)
      (by simp only [List.length_append, List.length_cons, List.length_nil] <;> omega)
  rw [fromChars_of_ranges hfr har hdr hau (by simp [e_tw])]
  rw [e_tw, e_h0, trim_space_block P H hP hHw, e_th, e_dt]
  simp only [eq_self_iff_true, if_true, ite_true, Nat.add_sub_cancel]
  rw [e_msg, trimChars_cons_space, trimChars_concat_space, hMt,
    ← List.eq_replicate_of_mem hP]

/-- Round trip, aliased case: rendering a canonical `Commit` whose alias
decoration differs from the date and re-parsing recovers it field for field. -/
theorem roundtrip_some (T P H A M D U : List Char)
    (hT : '*' ∉ T ∧ '-' ∉ T ∧ '(' ∉ T ∧ ')' ∉ T)
    (hP : ∀ x ∈ P, x = ' ')
    (hHne : H ≠ [])
    (hH : ∀ x ∈ H, isWs x = false ∧ x ≠ '-' ∧ x ≠ '(' ∧ x ≠ ')')
    (hAr : ')' ∉ A)
    (hAD : A ≠ D)
    (hMt : trimChars M = M)
    (hD : ∀ x ∈ D, x ≠ '(' ∧ x ≠ ')' ∧ x ≠ '<' ∧ x ≠ '>')
    (hU : ∀ x ∈ U, x ≠ '(' ∧ x ≠ ')' ∧ x ≠ '<' ∧ x ≠ '>') :
    Commit.fromChars (Commit.render ⟨T, P, H, some A, M, D, U⟩) =
      .ok ⟨T, P, H, some A, M, D, U⟩ := by
  have hPd : '-' ∉ P := fun hm => absurd (hP _ hm) (by decide)
  have hPl : '(' ∉ P := fun hm => absurd (hP _ hm) (by decide)
  have hPr : ')' ∉ P := fun hm => absurd (hP _ hm) (by decide)
  have hHd : '-' ∉ H := fun hm => (hH _ hm).2.1 rfl
  have hHl : '(' ∉ H := fun hm => (hH _ hm).2.2.1 rfl
  have hHr : ')' ∉ H := fun hm => (hH _ hm).2.2.2 rfl
  have hHsp : ' ' ∉ H := fun hm => absurd (hH _ hm).1 (by decide)
  have hHw : ∀ x ∈ H, isWs x = false := fun x hx => (hH x hx).1
  have hDl : '(' ∉ D := fun hm => (hD _ hm).1 rfl
  have hUl : '(' ∉ U := fun hm => (hU _ hm).1 rfl
  have hUr : ')' ∉ U := fun hm => (hU _ hm).2.1 rfl
  have hUlt : '<' ∉ U := fun hm => (hU _ hm).2.2.1 rfl
  have hr0 : Commit.render ⟨T, P, H, some A, M, D, U⟩ =
      T ++ '*' :: ' ' :: (P ++ (H ++ ' ' :: '-' :: (' ' :: '(' :: (A ++ ')' :: ' ' ::
        (M ++ ' ' :: '(' :: (D ++ ')' :: ' ' :: '<' :: (U ++ ['>']))))))) := by
    simp [Commit.render]
  rw [hr0]
  set s := T ++ '*' :: ' ' :: (P ++ (H ++ ' ' :: '-' :: (' ' :: '(' :: (A ++ ')' :: ' ' ::
    (M ++ ' ' :: '(' :: (D ++ ')' :: ' ' :: '<' :: (U ++ ['>']))))))) with hs
  have f_star : firstPos '*' s = some T.length := by
    rw [hs]
    exact firstPos_split _ hT.1
  have e2 : s = (T ++ '*' :: ' ' :: (P ++ (H ++ [' ']))) ++ '-' :: (' ' :: '(' :: (A ++ ')' :: ' ' ::
      (M ++ ' ' :: '(' :: (D ++ ')' :: ' ' :: '<' :: (U ++ ['>']))))) := by
    rw [hs]
    simp [List.append_assoc]
  have hnm2 : '-' ∉ T ++ '*' :: ' ' :: (P ++ (H ++ [' '])) :=
    not_mem_append hT.2.1 (not_mem_cons (by decide) (not_mem_cons (by decide)
      (not_mem_append hPd (not_mem_append hHd (not_mem_cons (by decide) (by simp))))))
  have f_dash : firstPos '-' s = some (T.length + P.length + H.length + 3) := by
    rw [e2, firstPos_split _ hnm2]
    simp only [List.length_append, List.length_cons, List.length_nil, Option.some.injEq] <;> omega
  have hfr : firstRange '*' '-' s =
      some (T.length + 1, T.length + P.length + H.length + 3) := by
    unfold firstRange
    rw [f_star, f_dash]
  have e3 : s = (T ++ ['*']) ++ ((' ' :: (P ++ (H ++ [' ']))) ++ ('-' :: (' ' :: '(' :: (A ++ ')' :: ' ' ::
      (M ++ ' ' :: '(' :: (D ++ ')' :: ' ' :: '<' :: (U ++ ['>'])))))) ) := by
    rw [hs]
    simp [List.append_assoc]
  have e_h0 : strFromRange s (T.length + 1) (T.length + P.length + H.length + 3) =
      ' ' :: (P ++ (H ++ [' '])) := by
    rw [e3]
    exact strFromRange_split _ _ _
      (by simp only [List.length_append, List.length_cons, List.length_nil] <;> omega)
      (by simp only [List.length_append, List.length_cons, List.length_nil] <;> omega)
  have e_tw : ((strFromRange s (T.length + 1) (T.length + P.length + H.length + 3)).takeWhile
      (fun c => c = ' ')).length = P.length + 1 := by
    rw [e_h0, takeWhile_space_block P H hP hHsp hHne]
    simp
  have e4 : s = (T ++ '*' :: ' ' :: (P ++ (H ++ ' ' :: '-' :: [' ']))) ++ '(' ::
      (A ++ ')' :: ' ' :: (M ++ ' ' :: '(' :: (D ++ ')' :: ' ' :: '<' :: (U ++ ['>'])))) := by
    rw [hs]
    simp [List.append_assoc]
  have hnml : '(' ∉ T ++ '*' :: ' ' :: (P ++ (H ++ ' ' :: '-' :: [' '])) :=
    not_mem_append hT.2.2.1 (not_mem_cons (by decide) (not_mem_cons (by decide)
      (not_mem_append hPl (not_mem_append hHl (not_mem_cons (by decide) (not_mem_cons (by decide)
        (by simp)))))))
  have f_lpar : firstPos '(' s = some (T.length + P.length + H.length + 5) := by
    rw [e4, firstPos_split _ hnml]
    simp only [List.length_append, List.length_cons, List.length_nil, Option.some.injEq] <;> omega
  have e5 : s = (T ++ '*' :: ' ' :: (P ++ (H ++ ' ' :: '-' :: (' ' :: '(' :: A)))) ++ ')' ::
      (' ' :: (M ++ ' ' :: '(' :: (D ++ ')' :: ' ' :: '<' :: (U ++ ['>'])))) := by
    rw [hs]
    simp [List.append_assoc]
  have hnmr : ')' ∉ T ++ '*' :: ' ' :: (P ++ (H ++ ' ' :: '-' :: (' ' :: '(' :: A))) :=
    not_mem_append hT.2.2.2 (not_mem_cons (by decide) (not_mem_cons (by decide)
      (not_mem_append hPr (not_mem_append hHr (not_mem_cons (by decide) (not_mem_cons (by decide)
        (not_mem_cons (by decide) (not_mem_cons (by decide) hAr))))))))
  have f_rpar : firstPos ')' s =
      some (T.length + P.length + H.length + A.length + 6) := by
    rw [e5, firstPos_split _ hnmr]
    simp only [List.length_append, List.length_cons, List.length_nil, Option.some.injEq] <;> omega
  have har : firstRange '(' ')' s =
      some (T.length + P.length + H.length + 6,
        T.length + P.length + H.length + A.length + 6) := by
    unfold firstRange
    rw [f_lpar, f_rpar]
  have e_alp : s = (T ++ '*' :: ' ' :: (P ++ (H ++ ' ' :: '-' :: (' ' :: ['('])))) ++
      (A ++ (')' :: ' ' :: (M ++ ' ' :: '(' :: (D ++ ')' :: ' ' :: '<' :: (U ++ ['>']))))) := by
    rw [hs]
    simp [List.append_assoc]
  have e_al : strFromRange s (T.length + P.length + H.length + 6)
      (T.length + P.length + H.length + A.length + 6) = A := by
    rw [e_alp]
    exact strFromRange_split _ _ _
      (by simp only [List.length_append, List.length_cons, List.length_nil] <;> omega)
      (by simp only [List.length_append, List.length_cons, List.length_nil] <;> omega)
  have e6 : s = (T ++ '*' :: ' ' :: (P ++ (H ++ ' ' :: '-' :: (' ' :: '(' :: (A ++ ')' :: ' ' ::
      (M ++ [' '])))))) ++ '(' :: (D ++ ')' :: ' ' :: '<' :: (U ++ ['>'])) := by
    rw [hs]
    simp [List.append_assoc]
  have hnl2 : '(' ∉ D ++ ')' :: ' ' :: '<' :: (U ++ ['>']) :=
    not_mem_append hDl (not_mem_cons (by decide) (not_mem_cons (by decide) (not_mem_cons (by decide)
      (not_mem_append hUl (not_mem_cons (by decide) (by simp))))))
  have g_lpar : lastPos '(' s =
      some (T.length + P.length + H.length + A.length + M.length + 9) := by
    rw [e6, lastPos_split _ hnl2]
    simp only [List.length_append, List.length_cons, List.length_nil, Option.some.injEq] <;> omega
  have e7 : s = (T ++ '*' :: ' ' :: (P ++ (H ++ ' ' :: '-' :: (' ' :: '(' :: (A ++ ')' :: ' ' ::
      (M ++ ' ' :: '(' :: D)))))) ++ ')' :: (' ' :: '<' :: (U ++ ['>'])) := by
    rw [hs]
    simp [List.append_assoc]
  have hnr2 : ')' ∉ ' ' :: '<' :: (U ++ ['>']) :=
    not_mem_cons (by decide) (not_mem_cons (by decide)
      (not_mem_append hUr (not_mem_cons (by decide) (by simp))))
  have g_rpar : lastPos ')' s =
      some (T.length + P.length + H.length + A.length + M.length + D.length + 10) := by
    rw [e7, lastPos_split _ hnr2]
    simp only [List.length_append, List.length_cons, List.length_nil, Option.some.injEq] <;> omega
  have hdr : lastRange '(' ')' s =
      some (T.length + P.length + H.length + A.length + M.length + 10,
        T.length + P.length + H.length + A.length + M.length + D.length + 10) := by
    unfold lastRange
    rw [g_lpar, g_rpar]
  have e_dtp : s = (T ++ '*' :: ' ' :: (P ++ (H ++ ' ' :: '-' :: (' ' :: '(' :: (A ++ ')' :: ' ' ::
      (M ++ ' ' :: ['('])))))) ++ (D ++ (')' :: ' ' :: '<' :: (U ++ ['>']))) := by
    rw [hs]
    simp [List.append_assoc]
  have e_dt : strFromRange s (T.length + P.length + H.length + A.length + M.length + 10)
      (T.length + P.length + H.length + A.length + M.length + D.length + 10) = D := by
    rw [e_dtp]
    exact strFromRange_split _ _ _
      (by simp only [List.length_append, List.length_cons, List.length_nil] <;> omega)
      (by simp only [List.length_append, List.length_cons, List.length_nil] <;> omega)
  have e8 : s = (T ++ '*' :: ' ' :: (P ++ (H ++ ' ' :: '-' :: (' ' :: '(' :: (A ++ ')' :: ' ' ::
      (M ++ ' ' :: '(' :: (D ++ ')' :: [' ']))))))) ++ '<' :: (U ++ ['>']) := by
    rw [hs]
    simp [List.append_assoc]
  have hnlt : '<' ∉ U ++ ['>'] :=
    not_mem_append hUlt (not_mem_cons (by decide) (by simp))
  have g_lt : lastPos '<' s =
      some (T.length + P.length + H.length + A.length + M.length + D.length + 12) := by
    rw [e8, lastPos_split _ hnlt]
    simp only [List.length_append, List.length_cons, List.length_nil, Option.some.injEq] <;> omega
  have e9 : s = (T ++ '*' :: ' ' :: (P ++ (H ++ ' ' :: '-' :: (' ' :: '(' :: (A ++ ')' :: ' ' ::
      (M ++ ' ' :: '(' :: (D ++ ')' :: ' ' :: '<' :: U))))))) ++ '>' :: [] := by
    rw [hs]
    simp [List.append_assoc]
  have g_gt : lastPos '>' s =
      some (T.length + P.length + H.length + A.length + M.length + D.length + U.length + 13) := by
    rw [e9, lastPos_split _ (by simp)]
    simp only [List.length_append, List.length_cons, List.length_nil, Option.some.injEq] <;> omega
  have e10 : s = (T ++ '*' :: ' ' :: (P ++ (H ++ ' ' :: '-' :: (' ' :: '(' :: (A ++ ')' :: ' ' ::
      (M ++ ' ' :: '(' :: (D ++ ')' :: ' ' :: ['<']))))))) ++ (U ++ ['>']) := by
    rw [hs]
    simp [List.append_assoc]
  have e_au : strFromRange s
      (T.length + P.length + H.length + A.length + M.length + D.length + 13)
      (T.length + P.length + H.length + A.length + M.length + D.length + U.length + 13) = U := by
    rw [e10]
    exact strFromRange_split _ _ _
      (by simp only [List.length_append, List.length_cons, List.length_nil] <;> omega)
      (by simp only [List.length_append, List.length_cons, List.length_nil] <;> omega)
  have hau : lastStr '<' '>' s = some U := by
    unfold lastStr lastRange
    rw [g_lt, g_gt]
    show some (strFromRange s
      (T.length + P.length + H.length + A.length + M.length + D.length + 12 + 1)
      (T.length + P.length + H.length + A.length + M.length + D.length + U.length + 13)) = some U
    rw [show T.length + P.length + H.length + A.length + M.length + D.length + 12 + 1 =
        T.length + P.length + H.length + A.length + M.length + D.length + 13 from by omega]
    exact congrArg some e_au
  have e11 : s = (T ++ '*' :: ' ' :: (P ++ (H ++ ' ' :: '-' :: (' ' :: '(' :: (A ++ [')']))))) ++
      ((' ' :: (M ++ [' '])) ++ ('(' :: (D ++ ')' :: ' ' :: '<' :: (U ++ ['>'])))) := by
    rw [hs]
    simp [List.append_assoc]
  have e_msg : strFromRange s (T.length + P.length + H.length + A.length + 6 + 1)
      (T.length + P.length + H.length + A.length + M.length + 10 - 1) = ' ' :: (M ++ [' ']) := by
    rw [e11]
    exact strFromRange_split _ _ _
      (by simp only [List.length_append, List.length_cons, List.length_nil] <;> omega)
      (by simp only [List.length_append, List.length_cons, List.length_nil] <;> omega)
  have e12 : s = ([] : List Char) ++ (T ++ ('*' :: ' ' :: (P ++ (H ++ ' ' :: '-' :: (' ' :: '(' :: (A ++ ')' :: ' ' ::
      (M ++ ' ' :: '(' :: (D ++ ')' :: ' ' :: '<' :: (U ++ ['>']))))))))) := by
    rw [hs]
    simp
  have e_th : strFromRange s 0 (T.length + 1 - 1) = T := by
    rw [e12]
    exact strFromRange_split _ _ _ (by simp)
      (by simp only [List.length_append, List.length_cons, List.length_nil] <;> omega)
  rw [fromChars_of_ranges hfr har hdr hau (by simp [e_tw])]
  rw [e_tw, e_h0, trim_space_block P H hP hHw, e_th, e_dt, e_al]
  simp only [hAD, if_false, ite_false, Nat.add_sub_cancel]
  rw [e_msg, trimChars_cons_space, trimChars_concat_space, hMt,
    ← List.eq_replicate_of_mem hP]

/-- C4 counterexample: the commit `⟨tree_head := "", hash_padding := "x",
hash := "a", aliases := none, message := "m", date := "d", author := "u"⟩`
satisfies every hypothesis of the claim (non-empty hash; message, date and
author free of `(`, `)`, `<`, `>`), yet rendering and re-parsing does not
reproduce it: the renderer prints the padding verbatim while the parser
re-derives it by counting leading spaces, so the non-space padding `"x"` is
folded into the hash (`"xa"`) and the padding comes back empty. -/
theorem C4_counterexample_padding_breaks_roundtrip :
    (['a'] : List Char) ≠ [] ∧
    (∀ x ∈ (['m'] : List Char), x ≠ '(' ∧ x ≠ ')' ∧ x ≠ '<' ∧ x ≠ '>') ∧
    (∀ x ∈ (['d'] : List Char), x ≠ '(' ∧ x ≠ ')' ∧ x ≠ '<' ∧ x ≠ '>') ∧
    (∀ x ∈ (['u'] : List Char), x ≠ '(' ∧ x ≠ ')' ∧ x ≠ '<' ∧ x ≠ '>') ∧
    Commit.fromChars (Commit.render ⟨[], ['x'], ['a'], none, ['m'], ['d'], ['u']⟩) ≠
      .ok ⟨[], ['x'], ['a'], none, ['m'], ['d'], ['u']⟩ := by
  decide

/-- C4 (amended): the round trip holds once the fields the renderer prints
outside the message/date/author are also constrained — the tree head free of
`*`, `-`, `(`, `)`; the hash padding all spaces; the hash non-empty, free of
whitespace and of `-`, `(`, `)`; the aliases (when present) free of `)` and
different from the date; and the message equal to its own trim (in addition
to the original claim's constraints on message, date and author). -/
theorem C4_roundtrip (c : Commit)
    (hT : '*' ∉ c.tree_head ∧ '-' ∉ c.tree_head ∧ '(' ∉ c.tree_head ∧ ')' ∉ c.tree_head)
    (hP : ∀ x ∈ c.hash_padding, x = ' ')
    (hHne : c.hash ≠ [])
    (hH : ∀ x ∈ c.hash, isWs x = false ∧ x ≠ '-' ∧ x ≠ '(' ∧ x ≠ ')')
    (hA : ∀ a, c.aliases = some a → ')' ∉ a ∧ a ≠ c.date)
    (hM : (∀ x ∈ c.message, x ≠ '(' ∧ x ≠ ')' ∧ x ≠ '<' ∧ x ≠ '>') ∧
      trimChars c.message = c.message)
    (hD : ∀ x ∈ c.date, x ≠ '(' ∧ x ≠ ')' ∧ x ≠ '<' ∧ x ≠ '>')
    (hU : ∀ x ∈ c.author, x ≠ '(' ∧ x ≠ ')' ∧ x ≠ '<' ∧ x ≠ '>') :
    Commit.fromChars (Commit.render c) = .ok c := by
  obtain ⟨T, P, H, al, M, D, U⟩ := c
  cases al with
  | none =>
    exact roundtrip_none T P H M D U hT hP hHne hH
      (fun x hx => ⟨(hM.1 x hx).1, (hM.1 x hx).2.1⟩) hM.2 hD hU
  | some A =>
    have hA2 := hA A rfl
    exact roundtrip_some T P H A M D U hT hP hHne hH hA2.1 hA2.2 hM.2 hD hU

/-- Witness for the amended C4 at a concrete aliased commit
(`| * a1 - (ma) fix (d) <u>` up to padding). -/
theorem C4_roundtrip_witness :
    Commit.fromChars (Commit.render
      ⟨['|', ' '], [' '], ['a', '1'], some ['m', 'a'], ['f', 'i', 'x'], ['d'], ['u']⟩) =
      .ok ⟨['|', ' '], [' '], ['a', '1'], some ['m', 'a'], ['f', 'i', 'x'], ['d'], ['u']⟩ :=
  C4_roundtrip _ (by decide) (by decide) (by decide) (by decide)
    (fun a ha => by cases ha; exact ⟨by decide, by decide⟩)
    ⟨by decide, by decide⟩ (by decide) (by decide)

end Gde

